import Mathlib

/-!
Verification development for the OData viewer's query and pagination engine.

The definitions below are shallow embeddings of the TypeScript source:

* `src/app/services/odata.service.ts` — resource discovery
  (`parseResourcesFromServiceDocument`, `parseResourcesFromMetadata`,
  `getResources`), query-string assembly (`getResourceData`) and response
  envelope handling (`extractDataArray`).
* `src/app/components/resource-data/resource-data.component.ts` — the clause
  compiler (`sanitizeFieldName`, `normalizeMatchMode`, `convertValueToLiteral`,
  `filterMetadataToClause`), column type inference (`detectValueType`,
  `detectColumnType`, `updateColumnTypes`), the count-strategy negotiation
  (`handleCountStrategyError`) and pagination total reconciliation
  (`loadResourceData`'s success handler, modelled as `applyLoadSuccess`).

JavaScript values are modelled by the inductive `JSValue`; numbers are
modelled as integers (the code only manipulates counts, offsets and literal
printing of finite values), `null` and `undefined` are conflated as `vnull`
(the code treats them identically at every modelled site), and browser
primitives that parse text into structured documents (`JSON.parse`,
`DOMParser`) are modelled by taking the already-structured document as input.
JavaScript `Date` parsing (`new Date(string)` composed with `toISOString`)
is implementation-defined and is threaded through as an explicit function
parameter `dp` where the source uses it.
-/

/-- Character-level embedding of JavaScript `String.prototype.toLowerCase`
(ASCII range, which is all the negotiation heuristics compare). -/
def toLowerStr (s : String) : String :=
  String.mk (s.data.map Char.toLower)

/-- Embedding of `Array.prototype.includes`-style substring search used by
`message.includes(...)`: `isPrefixB pat l` holds when `pat` begins `l`. -/
def isPrefixB : List Char → List Char → Bool
  | [], _ => true
  | _ :: _, [] => false
  | a :: as, b :: bs => a == b && isPrefixB as bs

/-- Embedding of JavaScript `String.prototype.includes` at the character-list
level: the pattern occurs contiguously somewhere in the list. -/
def containsB (pat : List Char) : List Char → Bool
  | [] => isPrefixB pat []
  | c :: rest => isPrefixB pat (c :: rest) || containsB pat rest

/-- String-level wrapper for `containsB`: `containsStr s pat` is the
embedding of `s.includes(pat)`. -/
def containsStr (s pat : String) : Bool :=
  containsB pat.data s.data

/-- The component's count strategy: `'count' | 'inlinecount' | 'none'`. -/
inductive CountStrategy where
  | count
  | inlinecount
  | none
  deriving DecidableEq, Repr

/-- Embedding of `ResourceDataComponent.handleCountStrategyError` (with the
message already extracted by `extractServerErrorMessage`).  `some s` means
the error was handled, the session strategy became `s` and the load is
re-issued; `Option.none` means the error was not handled and propagates. -/
def handleCountStrategyError (strategy : CountStrategy) (message : String) :
    Option CountStrategy :=
  let m := toLowerStr message
  if m = "" then Option.none
  else if strategy = CountStrategy.count ∧ containsStr m "$count" = true ∧
      containsStr m "not a valid" = true then
    some CountStrategy.inlinecount
  else if strategy = CountStrategy.inlinecount ∧
      containsStr m "$inlinecount" = true ∧
      containsStr m "not a valid" = true then
    some CountStrategy.none
  else Option.none

/-- Embedding of the guard in `loadResourceData`:
`this.countStrategy !== 'none' && (!this.dataInitialized || first === 0)`. -/
def shouldIncludeCount (strategy : CountStrategy) (dataInitialized : Bool)
    (first : Nat) : Bool :=
  (strategy ≠ CountStrategy.none : Bool) && (!dataInitialized || first == 0)

/-- Rank along the downgrade chain `count → inlinecount → none`. -/
def strategyRank : CountStrategy → Nat
  | CountStrategy.count => 2
  | CountStrategy.inlinecount => 1
  | CountStrategy.none => 0

/-- One decimal digit character. -/
def digitCharOf (n : Nat) : Char :=
  match n with
  | 0 => '0' | 1 => '1' | 2 => '2' | 3 => '3' | 4 => '4'
  | 5 => '5' | 6 => '6' | 7 => '7' | 8 => '8' | _ => '9'

/-- Fuelled digit accumulator: peel decimal digits from the right.  The
fuel (always sufficient at `n + 1`) keeps the recursion structural. -/
def natCharsGo : Nat → Nat → List Char → List Char
  | 0, _, acc => acc
  | fuel + 1, n, acc =>
    if n < 10 then digitCharOf n :: acc
    else natCharsGo fuel (n / 10) (digitCharOf (n % 10) :: acc)

/-- Decimal digit characters of a natural number, most significant first;
the embedding of JavaScript number-to-string for non-negative integers. -/
def natChars (n : Nat) : List Char :=
  natCharsGo (n + 1) n []

/-- Decimal string of a natural number. -/
def natRepr (n : Nat) : String :=
  String.mk (natChars n)

/-- Decimal string of an integer (embedding of `String(n)` for integral
JavaScript numbers). -/
def intRepr (n : Int) : String :=
  if n < 0 then "-" ++ natRepr n.natAbs else natRepr n.toNat

/-- One uppercase hexadecimal digit character. -/
def hexDigitChar (n : Nat) : Char :=
  match n with
  | 0 => '0' | 1 => '1' | 2 => '2' | 3 => '3' | 4 => '4'
  | 5 => '5' | 6 => '6' | 7 => '7' | 8 => '8' | 9 => '9'
  | 10 => 'A' | 11 => 'B' | 12 => 'C' | 13 => 'D' | 14 => 'E' | _ => 'F'

/-- The characters `encodeURIComponent` leaves unescaped
(`A-Z a-z 0-9 - _ . ! ~ * ' ( )` per ECMA-262). -/
def jsUriUnescaped (c : Char) : Bool :=
  c.isAlpha || c.isDigit ||
    (c ∈ ['-', '_', '.', '!', '~', '*', Char.ofNat 39, '(', ')'] : Bool)

/-- UTF-8 bytes of a character, as natural numbers. -/
def utf8Bytes (c : Char) : List Nat :=
  let n := c.toNat
  if n < 128 then [n]
  else if n < 2048 then [192 + n / 64, 128 + n % 64]
  else if n < 65536 then [224 + n / 4096, 128 + (n / 64) % 64, 128 + n % 64]
  else [240 + n / 262144, 128 + (n / 4096) % 64, 128 + (n / 64) % 64,
        128 + n % 64]

/-- Percent-encoding of one character, per `encodeURIComponent`. -/
def encodeChar (c : Char) : List Char :=
  if jsUriUnescaped c then [c]
  else (utf8Bytes c).flatMap fun b => ['%', hexDigitChar (b / 16), hexDigitChar (b % 16)]

/-- Embedding of JavaScript `encodeURIComponent`. -/
def encodeURIComponent (s : String) : String :=
  String.mk (s.data.flatMap encodeChar)

/-- Request options accepted by `ODataService.getResourceData`.  `skip` and
`top` are modelled as natural numbers (the component always passes
non-negative offsets); `Option.none` models an absent field. -/
structure ResourceDataRequestOptions where
  skip : Option Nat
  top : Option Nat
  includeCount : Bool
  countStrategy : Option CountStrategy
  orderBy : Option String
  filter : Option String

/-- The query parts assembled by `getResourceData` (service lines 484-509):
`$format=json`, then `$top`, `$skip`, the negotiated counting parameter,
`$orderby` and `$filter` (the latter two URI-encoded). -/
def queryParts (opts : ResourceDataRequestOptions) : List String :=
  ["$format=json"]
  ++ (match opts.top with
      | some t => if t > 0 then ["$top=" ++ natRepr t] else []
      | Option.none => [])
  ++ (match opts.skip with
      | some s => if s > 0 then ["$skip=" ++ natRepr s] else []
      | Option.none => [])
  ++ (if opts.includeCount then
        (if opts.countStrategy.getD CountStrategy.inlinecount =
            CountStrategy.inlinecount then ["$inlinecount=allpages"]
         else ["$count=true"])
      else [])
  ++ (match opts.orderBy with
      | some ob => if ob ≠ "" then ["$orderby=" ++ encodeURIComponent ob] else []
      | Option.none => [])
  ++ (match opts.filter with
      | some f => if f ≠ "" then ["$filter=" ++ encodeURIComponent f] else []
      | Option.none => [])

/-- Embedding of `queryParts.join('&')`. -/
def joinAmp : List String → String
  | [] => ""
  | [p] => p
  | p :: ps => p ++ "&" ++ joinAmp ps

/-- Full query string of the request issued by `getResourceData`. -/
def buildQueryString (opts : ResourceDataRequestOptions) : String :=
  joinAmp (queryParts opts)

/-- The single-quote character, written via its code point. -/
def quoteChar : Char := Char.ofNat 39

/-- JavaScript values as manipulated by the component.  `vnull` stands for
both `null` and `undefined`; `vnum` models finite integral numbers;
`vdate iso` models a `Date` instance whose `toISOString()` is `iso`. -/
inductive JSValue where
  | vnull
  | vbool (b : Bool)
  | vnum (n : Int)
  | vstr (s : String)
  | vdate (iso : String)
  | varr (elems : List JSValue)
  | vobj (fields : List (String × JSValue))
  deriving Repr

/-- A row object: field names mapped to values (keys unique, in insertion
order, as for a JavaScript object). -/
abbrev Row := List (String × JSValue)

/-- Property read on an object map: the first binding of the key. -/
def objGet {α : Type} (m : List (String × α)) (k : String) : Option α :=
  match m with
  | [] => Option.none
  | (k', v) :: rest => if k' = k then some v else objGet rest k

/-- Property write on an object map: overwrite the first binding in place,
or append a new binding (JavaScript object assignment). -/
def objSet {α : Type} (m : List (String × α)) (k : String) (v : α) :
    List (String × α) :=
  match m with
  | [] => [(k, v)]
  | (k', v') :: rest =>
    if k' = k then (k', v) :: rest else (k', v') :: objSet rest k v

/-- The component's `ColumnValueType` union. -/
inductive ColumnValueType where
  | string
  | number
  | boolean
  | date
  | object
  deriving DecidableEq, Repr

/-- Embedding of `isIsoDateString`: the regular expression
`^\d{4}-\d{2}-\d{2}T\d{2}:\d{2}` matches the string. -/
def isIsoDateString (s : String) : Bool :=
  match s.data with
  | a :: b :: c :: d :: '-' :: e :: f :: '-' :: g :: h :: 'T' ::
      i :: j :: ':' :: k :: l :: _ =>
    a.isDigit && b.isDigit && c.isDigit && d.isDigit && e.isDigit &&
    f.isDigit && g.isDigit && h.isDigit && i.isDigit && j.isDigit &&
    k.isDigit && l.isDigit
  | _ => false

/-- Embedding of `detectValueType`. -/
def detectValueType (v : JSValue) : Option ColumnValueType :=
  match v with
  | JSValue.vnull => Option.none
  | JSValue.vnum _ => some ColumnValueType.number
  | JSValue.vbool _ => some ColumnValueType.boolean
  | JSValue.vdate _ => some ColumnValueType.date
  | JSValue.vstr s =>
    some (if isIsoDateString s then ColumnValueType.date
          else ColumnValueType.string)
  | JSValue.varr _ => some ColumnValueType.object
  | JSValue.vobj _ => some ColumnValueType.object

/-- Embedding of `detectColumnType`: scan the page's rows in order and
return the first detected type for the column.  A `Option.none` element of
`data` models a row that is not a non-null object and is skipped. -/
def detectColumnType (data : List (Option Row)) (column : String) :
    Option ColumnValueType :=
  match data with
  | [] => Option.none
  | r :: rest =>
    match r with
    | some row =>
      match objGet row column with
      | some v =>
        match detectValueType v with
        | some t => some t
        | Option.none => detectColumnType rest column
      | Option.none => detectColumnType rest column
    | Option.none => detectColumnType rest column

/-- Embedding of `sanitizeFieldName`: drop every character outside
`[A-Za-z0-9_/.]`. -/
def isFieldChar (c : Char) : Bool :=
  (('A' ≤ c && c ≤ 'Z') : Bool) || (('a' ≤ c && c ≤ 'z') : Bool) ||
  (('0' ≤ c && c ≤ '9') : Bool) || c == '_' || c == '/' || c == '.'

/-- The component's `sanitizeFieldName` (`replace(/[^A-Za-z0-9_\/\.]/g, '')`). -/
def sanitizeFieldName (field : String) : String :=
  String.mk (field.data.filter isFieldChar)

/-- One step of `updateColumnTypes`' per-column loop: store the detected
type under the column and, when sanitization changes the name, also under
the sanitized name. -/
def updateColumnTypesStep (data : List (Option Row))
    (acc : List (String × ColumnValueType)) (column : String) :
    List (String × ColumnValueType) :=
  match detectColumnType data column with
  | some t =>
    let acc' := objSet acc column t
    let s := sanitizeFieldName column
    if s ≠ "" ∧ s ≠ column then objSet acc' s t else acc'
  | Option.none => acc

/-- Embedding of `updateColumnTypes`, made explicit in the visible columns,
the current type map and the freshly loaded page. -/
def updateColumnTypes (cols : List String)
    (types : List (String × ColumnValueType)) (data : List (Option Row)) :
    List (String × ColumnValueType) :=
  if data.isEmpty then types
  else cols.foldl (updateColumnTypesStep data) types

/-- The keys a call to `updateColumnTypes` can write: each visible column
with a detected type, together with its sanitized alias when different. -/
def writtenKeys (cols : List String) (data : List (Option Row)) :
    List String :=
  cols.flatMap fun column =>
    match detectColumnType data column with
    | some _ =>
      column :: (let s := sanitizeFieldName column
                 if s ≠ "" ∧ s ≠ column then [s] else [])
    | Option.none => []

/-- The per-resource session state owned by the component. -/
structure SessionState where
  totalRecords : Int
  dataInitialized : Bool
  countStrategy : CountStrategy
  pageSize : Nat
  columnTypes : List (String × ColumnValueType)
  deriving DecidableEq, Repr

/-- Embedding of `resetResourceState` restricted to the session fields. -/
def resetResourceState : SessionState :=
  { totalRecords := 0
    dataInitialized := false
    countStrategy := CountStrategy.inlinecount
    pageSize := 25
    columnTypes := [] }

/-- Embedding of the success handler of `loadResourceData` (component lines
199-222) restricted to total reconciliation: `total` is the count extracted
from the response (`Option.none` when no count field was present), `first`
the requested offset and `dataLen` the number of returned rows. -/
def applyLoadSuccess (st : SessionState) (first : Nat) (dataLen : Nat)
    (total : Option Int) : SessionState :=
  let newTotal : Int :=
    match total with
    | some t => t
    | Option.none =>
      if st.dataInitialized = false then (dataLen : Int)
      else if st.countStrategy = CountStrategy.none then
        (if (first : Int) + dataLen > st.totalRecords
         then (first : Int) + dataLen else st.totalRecords)
      else st.totalRecords
  { st with totalRecords := newTotal, dataInitialized := true }

/-- Normalized match modes as produced by `normalizeMatchMode`. -/
inductive MatchMode where
  | startsWith
  | endsWith
  | contains
  | equals
  | notEquals
  deriving DecidableEq, Repr

/-- Embedding of `normalizeMatchMode`: numeric, boolean and date columns
collapse everything except `notEquals` to `equals`; string columns keep the
five known modes, map the legacy `is` to `equals`, and treat anything else
(including an absent mode) as `contains`. -/
def normalizeMatchMode (matchMode : Option String)
    (fieldType : ColumnValueType) : MatchMode :=
  if fieldType = ColumnValueType.number ∨ fieldType = ColumnValueType.boolean ∨
      fieldType = ColumnValueType.date then
    if matchMode = some "notEquals" then MatchMode.notEquals
    else MatchMode.equals
  else
    match matchMode with
    | some "startsWith" => MatchMode.startsWith
    | some "endsWith" => MatchMode.endsWith
    | some "equals" => MatchMode.equals
    | some "notEquals" => MatchMode.notEquals
    | some "contains" => MatchMode.contains
    | some "is" => MatchMode.equals
    | _ => MatchMode.contains

/-- Embedding of JavaScript `String(value)` for the value forms the
component can hold.  Only the string case is exercised by the compiled
literals the claims inspect; the other cases record the JavaScript
conventions (`null`, `[object Object]`, ...). -/
def jsToString (value : JSValue) : String :=
  match value with
  | JSValue.vnull => "null"
  | JSValue.vbool b => if b then "true" else "false"
  | JSValue.vnum n => intRepr n
  | JSValue.vstr s => s
  | JSValue.vdate iso => iso
  | JSValue.varr _ => ""
  | JSValue.vobj _ => "[object Object]"

/-- Integer fragment of JavaScript `Number(string)`: the empty (or
all-blank) string coerces to `0`, a non-empty digit string to its value,
anything else to NaN (`Option.none`). -/
def strToNumber (s : String) : Option Int :=
  let t := s.data.dropWhile (fun c => c == ' ')
  let t := (t.reverse.dropWhile (fun c => c == ' ')).reverse
  if t = [] then some 0
  else if t.all Char.isDigit then
    some ((t.foldl (fun a c => a * 10 + (c.toNat - 48)) 0 : Nat) : Int)
  else Option.none

/-- Integer fragment of JavaScript `Number(value)`; `Option.none` models
NaN. -/
def jsToNumber (value : JSValue) : Option Int :=
  match value with
  | JSValue.vnull => some 0
  | JSValue.vbool b => some (if b then 1 else 0)
  | JSValue.vnum n => some n
  | JSValue.vstr s => strToNumber s
  | JSValue.vdate _ => Option.none
  | JSValue.varr _ => Option.none
  | JSValue.vobj _ => Option.none

/-- Embedding of `.replace(/'/g, "''")` on the character list. -/
def escChars : List Char → List Char
  | [] => []
  | c :: rest =>
    if c = quoteChar then c :: c :: escChars rest else c :: escChars rest

/-- Single-quote escaping of a string literal value. -/
def escapeQuotes (s : String) : String :=
  String.mk (escChars s.data)

/-- Embedding of the boolean coercion in `convertValueToLiteral`:
`String(value).toLowerCase() === 'true' || value === 1 || value === '1'`. -/
def jsBoolCoerce (value : JSValue) : Bool :=
  (toLowerStr (jsToString value) == "true") ||
  (match value with | JSValue.vnum n => n == 1 | _ => false) ||
  (match value with | JSValue.vstr s => s == "1" | _ => false)

/-- Embedding of `convertValueToLiteral`.  `dp` models the JavaScript
`new Date(string)` constructor composed with `toISOString`; `Option.none`
models an invalid date (`NaN` time). -/
def convertValueToLiteral (dp : String → Option String) (value : JSValue)
    (fieldType : ColumnValueType) : String :=
  if fieldType = ColumnValueType.number then
    match (match value with
           | JSValue.vnum n => some n
           | _ => jsToNumber value) with
    | some n => intRepr n
    | Option.none => "0"
  else if fieldType = ColumnValueType.boolean then
    let b := match value with
             | JSValue.vbool b => b
             | _ => jsBoolCoerce value
    if b then "true" else "false"
  else if fieldType = ColumnValueType.date then
    match value with
    | JSValue.vdate iso => "'" ++ iso ++ "'"
    | _ =>
      match dp (jsToString value) with
      | some iso => "'" ++ iso ++ "'"
      | Option.none => "''"
  else
    match value with
    | JSValue.vnum n => intRepr n
    | JSValue.vbool b => if b then "true" else "false"
    | JSValue.vdate iso => "'" ++ iso ++ "'"
    | _ => "'" ++ escapeQuotes (jsToString value) ++ "'"

/-- The PrimeNG `FilterMetadata` fields the compiler reads. -/
structure FilterMetadata where
  value : JSValue
  matchMode : Option String

/-- Embedding of `filterMetadataToClause`. -/
def filterMetadataToClause (dp : String → Option String) (field : String)
    (metadata : Option FilterMetadata) (fieldType : ColumnValueType) :
    Option String :=
  match metadata with
  | Option.none => Option.none
  | some md =>
    match md.value with
    | JSValue.vnull => Option.none
    | JSValue.vstr "" => Option.none
    | _ =>
      if fieldType = ColumnValueType.object then Option.none
      else
        let literal := convertValueToLiteral dp md.value fieldType
        match normalizeMatchMode md.matchMode fieldType with
        | MatchMode.startsWith =>
          some ("startswith(" ++ field ++ "," ++ literal ++ ")")
        | MatchMode.endsWith =>
          some ("endswith(" ++ field ++ "," ++ literal ++ ")")
        | MatchMode.equals => some (field ++ " eq " ++ literal)
        | MatchMode.notEquals => some (field ++ " ne " ++ literal)
        | MatchMode.contains =>
          some ("substringof(" ++ literal ++ "," ++ field ++ ")")

/-- Embedding of `getFieldType`: the stored type of the field, else of its
sanitized name, else `string`. -/
def getFieldType (columnTypes : List (String × ColumnValueType))
    (field : String) : ColumnValueType :=
  match objGet columnTypes field with
  | some t => t
  | Option.none =>
    let s := sanitizeFieldName field
    if s ≠ "" then (objGet columnTypes s).getD ColumnValueType.string
    else ColumnValueType.string

/-- Inverse of quote doubling: collapse each doubled single quote. -/
def unescapeChars : List Char → List Char
  | [] => []
  | [c] => [c]
  | a :: b :: rest =>
    if a = quoteChar ∧ b = quoteChar then a :: unescapeChars rest
    else a :: unescapeChars (b :: rest)

/-- Decoding of a compiled string literal, per the specification: strip the
outer single quotes and collapse each doubled quote. -/
def decodeStringLiteral (s : String) : Option String :=
  match s.data with
  | [] => Option.none
  | c :: rest =>
    if c = quoteChar ∧ rest.getLast? = some quoteChar ∧ rest ≠ [] then
      some (String.mk (unescapeChars rest.dropLast))
    else Option.none

/-- Property read through the model of optional chaining: only objects have
properties. -/
def jsGet (v : JSValue) (k : String) : Option JSValue :=
  match v with
  | JSValue.vobj fields => objGet fields k
  | _ => Option.none

/-- JavaScript truthiness of the modelled values (`NaN` is not
representable; every other falsy value is). -/
def jsTruthy (v : JSValue) : Bool :=
  match v with
  | JSValue.vnull => false
  | JSValue.vbool b => b
  | JSValue.vnum n => !(n == 0)
  | JSValue.vstr s => !(s == "")
  | JSValue.vdate _ => true
  | JSValue.varr _ => true
  | JSValue.vobj _ => true

/-- Embedding of `ODataService.extractDataArray` (service lines 532-546). -/
def extractDataArray (response : JSValue) : List JSValue :=
  match jsGet response "value" with
  | some (JSValue.varr l) => l
  | _ =>
    match (jsGet response "d").bind (fun d => jsGet d "results") with
    | some (JSValue.varr l) => l
    | _ =>
      match response with
      | JSValue.varr l => l
      | _ => if jsTruthy response then [response] else []

/-- A parsed XML element: tag, attributes, children and its (trimmed)
text content.  `DOMParser.parseFromString` is a browser primitive; the
embeddings below take the parsed element tree as input. -/
inductive XmlElem where
  | node (tag : String) (attrs : List (String × String))
      (children : List XmlElem) (text : String)
  deriving Repr

/-- Tag of an element. -/
def XmlElem.tagOf : XmlElem → String
  | XmlElem.node t _ _ _ => t

/-- Attribute lookup (`getAttribute`); `Option.none` models `null`. -/
def XmlElem.attr : XmlElem → String → Option String
  | XmlElem.node _ attrs _ _, k => objGet attrs k

/-- Children of an element. -/
def XmlElem.childrenOf : XmlElem → List XmlElem
  | XmlElem.node _ _ cs _ => cs

/-- Trimmed text content of an element. -/
def XmlElem.textOf : XmlElem → String
  | XmlElem.node _ _ _ t => t

/-- Embedding of `getElementsByTagName` over a forest: all elements with
the given tag, in document order, the roots included. -/
def byTagList (t : String) : List XmlElem → List XmlElem
  | [] => []
  | XmlElem.node tag attrs children text :: rest =>
    (if tag = t then [XmlElem.node tag attrs children text] else [])
    ++ byTagList t children ++ byTagList t rest

/-- A discovered resource (`ODataResource`). -/
structure ODataResource where
  name : String
  kind : String
  url : String
  deriving DecidableEq, Repr

/-- Insertion of a resource into a name-sorted list (code-point order as
the model of `localeCompare`). -/
def insertByName (r : ODataResource) : List ODataResource → List ODataResource
  | [] => [r]
  | x :: xs =>
    if r.name ≤ x.name then r :: x :: xs else x :: insertByName r xs

/-- Embedding of `.sort((a, b) => a.name.localeCompare(b.name))`. -/
def sortByName : List ODataResource → List ODataResource
  | [] => []
  | x :: xs => insertByName x (sortByName xs)

/-- Embedding of JavaScript `||` on strings: the left operand unless it is
empty (falsy). -/
def jsOrStr (a b : String) : String := if a = "" then b else a

/-- Embedding of `.replace(/^\//, '')`. -/
def stripLeadingSlash (s : String) : String :=
  match s.data with
  | '/' :: rest => String.mk rest
  | _ => s

/-- Embedding of `parseResourcesFromMetadata` (service lines 342-391) over
the parsed metadata document: `EntitySet` elements, then `EntityType`
elements not already present by name, then `FunctionImport` elements,
sorted by name.  An attribute that is absent or empty (falsy `Name`) skips
the element. -/
def parseResourcesFromMetadata (connUrl : String) (doc : List XmlElem) :
    List ODataResource :=
  let fromTag := fun (tag kind : String) (acc : List ODataResource)
      (dedup : Bool) =>
    (byTagList tag doc).foldl
      (fun acc e =>
        match e.attr "Name" with
        | some n =>
          if n ≠ "" ∧ (dedup = false ∨ acc.all (fun r => r.name ≠ n)) then
            acc ++ [{ name := n, kind := kind, url := connUrl ++ "/" ++ n }]
          else acc
        | Option.none => acc)
      acc
  let afterSets := fromTag "EntitySet" "EntitySet" [] false
  let afterTypes := fromTag "EntityType" "EntityType" afterSets true
  let afterFns := fromTag "FunctionImport" "FunctionImport" afterTypes false
  sortByName afterFns

/-- The JSON items of a service document payload, as read by the source:
`name`, `kind` and `url` properties (absent or empty modelled by
`Option.none` / `""`). -/
structure SvcJsonItem where
  name : Option String
  kind : Option String
  url : Option String
  deriving Repr

/-- A service-document body after the browser-side parsing the source
performs: either it parsed as JSON (with an optional `value` array of
items), or it did not and is processed as XML. -/
inductive SvcBody where
  | emptyBody
  | jsonBody (value : Option (List SvcJsonItem))
  | xmlBody (doc : List XmlElem)
  deriving Repr

/-- Embedding of `parseResourcesFromServiceDocument` (service lines
393-455).  A JSON body whose usable items are empty falls through to XML
parsing of the same text, which can yield no elements (JSON text is never
well-formed XML); this is modelled by returning the empty list. -/
def parseResourcesFromServiceDocument (connUrl : String) (body : SvcBody) :
    List ODataResource :=
  match body with
  | SvcBody.emptyBody => []
  | SvcBody.jsonBody value =>
    let items := (value.getD []).filterMap fun item =>
      match item.name with
      | some n =>
        if n ≠ "" then
          some { name := n
                 kind := jsOrStr ((item.kind).getD "") "Resource"
                 url := jsOrStr ((item.url).getD "") (connUrl ++ "/" ++ n) }
        else Option.none
      | Option.none => Option.none
    if items.length > 0 then sortByName items else []
  | SvcBody.xmlBody doc =>
    let fromCollections := (byTagList "collection" doc).foldl
      (fun acc e =>
        let href := (e.attr "href").getD ""
        let atomTitle := match byTagList "atom:title" e.childrenOf with
          | t :: _ => t.textOf
          | [] => ""
        let title := jsOrStr atomTitle
          (jsOrStr (match byTagList "title" e.childrenOf with
                    | t :: _ => t.textOf
                    | [] => "") href)
        if title ≠ "" then
          let normalizedHref := stripLeadingSlash href
          acc ++ [{ name := title
                    kind := "EntitySet"
                    url := if normalizedHref ≠ ""
                           then connUrl ++ "/" ++ normalizedHref
                           else connUrl ++ "/" ++ title }]
        else acc)
      []
    let withFns := (byTagList "function-import" doc).foldl
      (fun acc e =>
        let name := jsOrStr ((e.attr "name").getD "") ((e.attr "Title").getD "")
        if name ≠ "" then
          let normalizedHref :=
            stripLeadingSlash (jsOrStr ((e.attr "href").getD "") name)
          acc ++ [{ name := name
                    kind := "FunctionImport"
                    url := connUrl ++ "/" ++ normalizedHref }]
        else acc)
      fromCollections
    sortByName withFns

/-- Embedding of `ODataService.getResources` (service lines 457-475): parse
the fetched service document; when that yields at least one resource return
it, otherwise (including when the fetch itself failed) fall back to
fetching and parsing the metadata document.  A fetch outcome is an
`Except`: `Except.error` models a failed HTTP request. -/
def getResources (connUrl : String) (svcFetch : Except String SvcBody)
    (metaFetch : Except String (List XmlElem)) :
    Except String (List ODataResource) :=
  let metaResult : Except String (List ODataResource) :=
    match metaFetch with
    | Except.ok doc => Except.ok (parseResourcesFromMetadata connUrl doc)
    | Except.error e => Except.error e
  match svcFetch with
  | Except.ok body =>
    let resources := parseResourcesFromServiceDocument connUrl body
    if resources.length > 0 then Except.ok resources else metaResult
  | Except.error _ => metaResult

/-- One logical page load with its negotiated retries, abstracted over a
server oracle `err` that returns the extracted error message of a failing
request issued under the given strategy (`Option.none` models success).
The result lists the strategies of the requests actually issued, in order,
together with the surfaced error (`Option.none` on success).  This is the
recursion `loadResourceData` / `handleCountStrategyError` perform
(component lines 224-232 and 617-641). -/
def runLoad (st : CountStrategy) (err : CountStrategy → Option String) :
    List CountStrategy × Option String :=
  match err st with
  | Option.none => ([st], Option.none)
  | some msg =>
    match hh : handleCountStrategyError st msg with
    | some st' =>
      let r := runLoad st' err
      (st :: r.1, r.2)
    | Option.none => ([st], some msg)
  termination_by strategyRank st
  decreasing_by
    simp only [handleCountStrategyError] at hh
    split at hh
    · exact absurd hh (by simp)
    · split at hh
      · rename_i hcond
        cases hh
        cases hcond.1
        simp [strategyRank]
      · split at hh
        · rename_i hcond
          cases hh
          cases hcond.1
          simp [strategyRank]
        · exact absurd hh (by simp)

/-- A server that rejects `$count` and then `$inlinecount` with the vendor
phrasing, and succeeds once no counting parameter is sent. -/
def errBoth : CountStrategy → Option String
  | CountStrategy.count => some "$count is not a valid query option"
  | CountStrategy.inlinecount => some "$inlinecount is not a valid query option"
  | CountStrategy.none => Option.none

/-- Occurrence of the two-character pattern `a b` contiguously in a list;
used to reason about which query fragments can contain a counting
parameter. -/
def pairIn (a b : Char) : List Char → Bool
  | [] => false
  | [_] => false
  | x :: y :: rest => (x == a && y == b) || pairIn a b (y :: rest)

lemma escChars_eq_nil {l : List Char} (h : escChars l = []) : l = [] := by
  cases l with
  | nil => rfl
  | cons c rest =>
    simp only [escChars] at h
    split at h <;> simp_all

lemma unescape_esc (l : List Char) : unescapeChars (escChars l) = l := by
  induction l with
  | nil => rfl
  | cons c rest ih =>
    by_cases hc : c = quoteChar
    · subst hc
      simp only [escChars, if_pos rfl, unescapeChars, true_and, if_pos]
      exact congrArg _ ih
    · simp only [escChars, if_neg hc]
      cases hrest : escChars rest with
      | nil =>
        have := escChars_eq_nil hrest
        subst this
        rfl
      | cons d ds =>
        rw [hrest] at ih
        simp only [unescapeChars, ih]
        rw [if_neg]
        intro hcontra
        exact hc hcontra.1

lemma mem_of_getLastEq {α : Type} {l : List α} {a : α}
    (h : l.getLast? = some a) : a ∈ l := by
  induction l with
  | nil => simp at h
  | cons x xs ih =>
    cases xs with
    | nil =>
      simp [List.getLast?] at h
      simp [h]
    | cons y ys =>
      rw [List.getLast?_cons_cons] at h
      exact List.mem_cons_of_mem x (ih h)

lemma countFilter (a : Char) (p : Char → Bool) (l : List Char) :
    List.count a (List.filter p l) =
      if p a = true then List.count a l else 0 := by
  induction l with
  | nil => simp
  | cons c t ih =>
    by_cases hp : p c = true
    · rw [List.filter_cons_of_pos hp, List.count_cons, List.count_cons, ih]
      by_cases hca : c = a
      · subst hca
        simp [hp]
      · simp [hca]
    · rw [List.filter_cons_of_neg (by simpa using hp), ih, List.count_cons]
      by_cases hca : c = a
      · subst hca
        simp [hp]
      · simp [hca]

/-- Claim C7: for a string-typed column with match mode `contains`, field
`Name` and value `foo`, the compiled clause is exactly
`substringof('foo',Name)` — literal first, then field. -/
theorem C7_contains_literal_first (dp : String → Option String) :
    filterMetadataToClause dp "Name"
        (some { value := JSValue.vstr "foo", matchMode := some "contains" })
        ColumnValueType.string =
      some "substringof('foo',Name)" := rfl

/-- Claim C8: a string filter value compiled under a string-typed column is
the value wrapped in single quotes with each embedded quote doubled, and
decoding the literal (strip the outer quotes, collapse doubled quotes)
recovers the value; an unknown-typed column (no entry for the field or its
sanitized name) is treated as string-typed. -/
theorem C8_string_literal_roundtrip (dp : String → Option String)
    (v : String) :
    convertValueToLiteral dp (JSValue.vstr v) ColumnValueType.string =
      "'" ++ escapeQuotes v ++ "'"
    ∧ decodeStringLiteral
        (convertValueToLiteral dp (JSValue.vstr v) ColumnValueType.string) =
        some v
    ∧ ∀ (types : List (String × ColumnValueType)) (f : String),
        objGet types f = Option.none →
        objGet types (sanitizeFieldName f) = Option.none →
        getFieldType types f = ColumnValueType.string := by
  have hlit : convertValueToLiteral dp (JSValue.vstr v)
      ColumnValueType.string = "'" ++ escapeQuotes v ++ "'" := rfl
  refine ⟨hlit, ?_, ?_⟩
  · rw [hlit]
    have hdata : ("'" ++ escapeQuotes v ++ "'").data =
        quoteChar :: (escChars v.data ++ [quoteChar]) := by
      simp [String.data_append, escapeQuotes]
      rfl
    simp only [decodeStringLiteral, hdata]
    rw [if_pos]
    · rw [List.dropLast_concat, unescape_esc]
    · simp [List.getLast?_concat]
  · intro types f h1 h2
    simp only [getFieldType, h1]
    by_cases hs : sanitizeFieldName f = ""
    · simp [hs]
    · simp [hs, h2]

/-- Closed witness for C8 at a concrete value containing a quote and a
concrete unknown-typed field. -/
theorem C8_witness :
    decodeStringLiteral
        (convertValueToLiteral (fun _ => Option.none) (JSValue.vstr "a'b")
          ColumnValueType.string) = some "a'b"
    ∧ getFieldType [] "x!" = ColumnValueType.string :=
  ⟨(C8_string_literal_roundtrip (fun _ => Option.none) "a'b").2.1,
   (C8_string_literal_roundtrip (fun _ => Option.none) "a'b").2.2 [] "x!"
     rfl rfl⟩

/-- Claim C9: sanitization keeps every character of the class
`[A-Za-z0-9_/.]` (with multiplicity, in order), drops every character
outside it, and is idempotent. -/
theorem C9_sanitize_exact_and_idempotent (x : String) :
    (∀ c, isFieldChar c = true →
        List.count c (sanitizeFieldName x).data = List.count c x.data)
    ∧ (∀ c, isFieldChar c = false → c ∉ (sanitizeFieldName x).data)
    ∧ List.Sublist (sanitizeFieldName x).data x.data
    ∧ sanitizeFieldName (sanitizeFieldName x) = sanitizeFieldName x := by
  refine ⟨?_, ?_, ?_, ?_⟩
  · intro c hc
    show List.count c (List.filter isFieldChar x.data) = _
    rw [countFilter, if_pos hc]
  · intro c hc hmem
    have := List.of_mem_filter (p := isFieldChar) hmem
    rw [hc] at this
    exact Bool.false_ne_true this
  · exact List.filter_sublist x.data
  · show String.mk (List.filter isFieldChar (String.mk
      (List.filter isFieldChar x.data)).data) = _
    rw [show (String.mk (List.filter isFieldChar x.data)).data =
      List.filter isFieldChar x.data from rfl]
    rw [List.filter_filter]
    simp [sanitizeFieldName]

/-- Closed witness for C9 at a field name containing characters outside the
class. -/
theorem C9_witness :
    isFieldChar 'a' = true
    ∧ List.count 'a' (sanitizeFieldName "a$b !a").data =
        List.count 'a' ("a$b !a").data
    ∧ isFieldChar '$' = false
    ∧ '$' ∉ (sanitizeFieldName "a$b !a").data
    ∧ sanitizeFieldName (sanitizeFieldName "a$b !a") =
        sanitizeFieldName "a$b !a" :=
  ⟨rfl,
   (C9_sanitize_exact_and_idempotent "a$b !a").1 'a' rfl,
   rfl,
   (C9_sanitize_exact_and_idempotent "a$b !a").2.1 '$' rfl,
   (C9_sanitize_exact_and_idempotent "a$b !a").2.2.2⟩

lemma extractDataArray_obj_wrap (fields : List (String × JSValue))
    (h1 : ∀ l, jsGet (JSValue.vobj fields) "value" ≠
      some (JSValue.varr l))
    (h2 : ∀ l, (jsGet (JSValue.vobj fields) "d").bind
        (fun d => jsGet d "results") ≠ some (JSValue.varr l)) :
    extractDataArray (JSValue.vobj fields) = [JSValue.vobj fields] := by
  simp only [extractDataArray]
  cases hv : jsGet (JSValue.vobj fields) "value" with
  | none =>
    cases hd : (jsGet (JSValue.vobj fields) "d").bind
        (fun d => jsGet d "results") with
    | none => rfl
    | some w2 => cases w2 <;> first | rfl | exact absurd hd (h2 _)
  | some w =>
    cases w
    case varr l => exact absurd hv (h1 l)
    all_goals
      cases hd : (jsGet (JSValue.vobj fields) "d").bind
          (fun d => jsGet d "results") with
      | none => rfl
      | some w2 => cases w2 <;> first | rfl | exact absurd hd (h2 _)

/-- Claim C10: `extractDataArray` always yields an array — the `value`
array when one is present, else the `d.results` array, else the response
itself when it is an array, else a one-element wrap of the (truthy)
response, objects without either envelope included — and every falsy
response (null/undefined, `false`, `0`, the empty string) yields the empty
array rather than a one-row wrap. -/
theorem C10_extractDataArray :
    (∀ (fields : List (String × JSValue)) (l : List JSValue),
        objGet fields "value" = some (JSValue.varr l) →
        extractDataArray (JSValue.vobj fields) = l)
    ∧ (∀ (fields dfields : List (String × JSValue)) (l : List JSValue),
        (∀ l', objGet fields "value" ≠ some (JSValue.varr l')) →
        objGet fields "d" = some (JSValue.vobj dfields) →
        objGet dfields "results" = some (JSValue.varr l) →
        extractDataArray (JSValue.vobj fields) = l)
    ∧ (∀ l : List JSValue, extractDataArray (JSValue.varr l) = l)
    ∧ (∀ v : JSValue,
        (∀ l, jsGet v "value" ≠ some (JSValue.varr l)) →
        (∀ l, (jsGet v "d").bind (fun d => jsGet d "results") ≠
          some (JSValue.varr l)) →
        (∀ l, v ≠ JSValue.varr l) →
        jsTruthy v = true →
        extractDataArray v = [v])
    ∧ extractDataArray JSValue.vnull = []
    ∧ extractDataArray (JSValue.vbool false) = []
    ∧ extractDataArray (JSValue.vnum 0) = []
    ∧ extractDataArray (JSValue.vstr "") = [] := by
  refine ⟨?_, ?_, ?_, ?_, rfl, rfl, rfl, rfl⟩
  · intro fields l h
    simp [extractDataArray, jsGet, h]
  · intro fields dfields l hnv hd hres
    simp only [extractDataArray, jsGet]
    cases hv : objGet fields "value" with
    | none => simp [hd, hres]
    | some v =>
      cases v with
      | varr l' => exact absurd hv (hnv l')
      | vnull => simp [hd, hres]
      | vbool b => simp [hd, hres]
      | vnum n => simp [hd, hres]
      | vstr s => simp [hd, hres]
      | vdate iso => simp [hd, hres]
      | vobj fs => simp [hd, hres]
  · intro l
    rfl
  · intro v h1 h2 h3 htruthy
    cases v with
    | vobj fields => exact extractDataArray_obj_wrap fields h1 h2
    | varr l => exact absurd rfl (h3 l)
    | vnull => simp [jsTruthy] at htruthy
    | vbool b => cases b <;> simp_all [jsTruthy, extractDataArray, jsGet]
    | vnum n =>
      simp only [jsTruthy] at htruthy
      simp [extractDataArray, jsGet, jsTruthy, htruthy]
    | vstr s =>
      simp only [jsTruthy] at htruthy
      simp [extractDataArray, jsGet, jsTruthy, htruthy]
    | vdate iso => rfl

/-- Closed witness for C10: a `value` envelope, a `d.results` envelope, a
truthy scalar, and a truthy object carrying neither envelope (wrapped as a
one-row result), all at concrete inputs. -/
theorem C10_witness :
    extractDataArray (JSValue.vobj [("value", JSValue.varr [JSValue.vnum 1])])
        = [JSValue.vnum 1]
    ∧ extractDataArray (JSValue.vobj
        [("d", JSValue.vobj [("results", JSValue.varr [JSValue.vnum 2])])])
        = [JSValue.vnum 2]
    ∧ extractDataArray (JSValue.vstr "x") = [JSValue.vstr "x"]
    ∧ extractDataArray (JSValue.vobj [("a", JSValue.vnum 1)]) =
        [JSValue.vobj [("a", JSValue.vnum 1)]] :=
  ⟨C10_extractDataArray.1 [("value", JSValue.varr [JSValue.vnum 1])]
     [JSValue.vnum 1] rfl,
   C10_extractDataArray.2.1
     [("d", JSValue.vobj [("results", JSValue.varr [JSValue.vnum 2])])]
     [("results", JSValue.varr [JSValue.vnum 2])] [JSValue.vnum 2]
     (fun l' h => by simp [objGet] at h) rfl rfl,
   C10_extractDataArray.2.2.2.1 (JSValue.vstr "x")
     (fun l h => by simp [jsGet] at h)
     (fun l h => by simp [jsGet] at h)
     (fun l h => by simp at h) rfl,
   C10_extractDataArray.2.2.2.1 (JSValue.vobj [("a", JSValue.vnum 1)])
     (fun l h => by simp [jsGet, objGet] at h)
     (fun l h => by simp [jsGet, objGet] at h)
     (fun l h => by simp at h) rfl⟩

/-- Claim C6: for a column inferred as number, boolean or date, any match
mode other than `notEquals` compiles to `field eq <literal>` (never a
`startswith`/`endswith`/`substringof` clause), and `notEquals` compiles to
`field ne <literal>`. -/
theorem C6_typed_columns_collapse_to_equality (dp : String → Option String)
    (field : String) (value : JSValue) (mm : Option String)
    (ft : ColumnValueType)
    (hft : ft = ColumnValueType.number ∨ ft = ColumnValueType.boolean ∨
      ft = ColumnValueType.date)
    (hv1 : value ≠ JSValue.vnull) (hv2 : value ≠ JSValue.vstr "") :
    (mm ≠ some "notEquals" →
      filterMetadataToClause dp field
          (some { value := value, matchMode := mm }) ft =
        some (field ++ " eq " ++ convertValueToLiteral dp value ft))
    ∧ (mm = some "notEquals" →
      filterMetadataToClause dp field
          (some { value := value, matchMode := mm }) ft =
        some (field ++ " ne " ++ convertValueToLiteral dp value ft)) := by
  have hobj : ft ≠ ColumnValueType.object := by
    rcases hft with h | h | h <;> subst h <;> intro hc <;> cases hc
  have hnorm_ne : mm = some "notEquals" →
      normalizeMatchMode mm ft = MatchMode.notEquals := by
    intro h
    rcases hft with hf | hf | hf <;> subst hf <;>
      simp [normalizeMatchMode, h]
  have hnorm_eq : mm ≠ some "notEquals" →
      normalizeMatchMode mm ft = MatchMode.equals := by
    intro h
    rcases hft with hf | hf | hf <;> subst hf <;>
      simp [normalizeMatchMode, h]
  constructor
  · intro hmm
    cases value with
    | vnull => exact absurd rfl hv1
    | vstr s =>
      have hs : s ≠ "" := fun h => hv2 (by rw [h])
      simp only [filterMetadataToClause]
      split
      all_goals first
      | (rename_i h
         exact JSValue.noConfusion h)
      | (rename_i h
         injection h with h'
         exact absurd h' hs)
      | (rename_i h
         exact absurd h hobj)
      | rw [hnorm_eq hmm]
    | vbool b => simp [filterMetadataToClause, hobj, hnorm_eq hmm]
    | vnum n => simp [filterMetadataToClause, hobj, hnorm_eq hmm]
    | vdate iso => simp [filterMetadataToClause, hobj, hnorm_eq hmm]
    | varr l => simp [filterMetadataToClause, hobj, hnorm_eq hmm]
    | vobj fs => simp [filterMetadataToClause, hobj, hnorm_eq hmm]
  · intro hmm
    cases value with
    | vnull => exact absurd rfl hv1
    | vstr s =>
      have hs : s ≠ "" := fun h => hv2 (by rw [h])
      simp only [filterMetadataToClause]
      split
      all_goals first
      | (rename_i h
         exact JSValue.noConfusion h)
      | (rename_i h
         injection h with h'
         exact absurd h' hs)
      | (rename_i h
         exact absurd h hobj)
      | rw [hnorm_ne hmm]
    | vbool b => simp [filterMetadataToClause, hobj, hnorm_ne hmm]
    | vnum n => simp [filterMetadataToClause, hobj, hnorm_ne hmm]
    | vdate iso => simp [filterMetadataToClause, hobj, hnorm_ne hmm]
    | varr l => simp [filterMetadataToClause, hobj, hnorm_ne hmm]
    | vobj fs => simp [filterMetadataToClause, hobj, hnorm_ne hmm]

/-- Closed witness for C6: a numeric column with match mode `contains`
compiles to an equality clause. -/
theorem C6_witness :
    filterMetadataToClause (fun _ => Option.none) "Price"
        (some { value := JSValue.vnum 5, matchMode := some "contains" })
        ColumnValueType.number = some "Price eq 5" := by
  have h := (C6_typed_columns_collapse_to_equality (fun _ => Option.none)
      "Price" (JSValue.vnum 5) (some "contains") ColumnValueType.number
      (Or.inl rfl) (fun hc => JSValue.noConfusion hc)
      (fun hc => JSValue.noConfusion hc)).1 (by simp)
  rw [h]
  rfl

/-- Claim C2: with no count field in the response, the very first
successful load sets `totalRecords` to the returned row count; afterwards,
under strategy `None`, a load sets `totalRecords` to `skip + rows.length`
exactly when that exceeds the current value and keeps it otherwise, so it
never decreases; the concrete 25/10/5 scenario yields totals 25, 35, 35. -/
theorem C2_total_reconciliation :
    (∀ (st : SessionState) (first len : Nat),
      st.dataInitialized = false →
      (applyLoadSuccess st first len Option.none).totalRecords = (len : Int))
    ∧ (∀ (st : SessionState) (first len : Nat),
      st.dataInitialized = true →
      st.countStrategy = CountStrategy.none →
      ((first : Int) + len > st.totalRecords →
        (applyLoadSuccess st first len Option.none).totalRecords =
          (first : Int) + len)
      ∧ ((first : Int) + len ≤ st.totalRecords →
        (applyLoadSuccess st first len Option.none).totalRecords =
          st.totalRecords)
      ∧ st.totalRecords ≤
          (applyLoadSuccess st first len Option.none).totalRecords)
    ∧ (let s0 : SessionState :=
        { resetResourceState with countStrategy := CountStrategy.none }
       let s1 := applyLoadSuccess s0 0 25 Option.none
       let s2 := applyLoadSuccess s1 25 10 Option.none
       let s3 := applyLoadSuccess s2 25 5 Option.none
       s1.totalRecords = 25 ∧ s2.totalRecords = 35 ∧
         s3.totalRecords = 35) := by
  refine ⟨?_, ?_, by decide⟩
  · intro st first len h
    simp [applyLoadSuccess, h]
  · intro st first len h hs
    refine ⟨?_, ?_, ?_⟩
    · intro hgt
      simp [applyLoadSuccess, h, hs, hgt]
    · intro hle
      simp [applyLoadSuccess, h, hs,
        show ¬((first : Int) + len > st.totalRecords) from by omega]
    · by_cases hgt : (first : Int) + len > st.totalRecords
      · simp [applyLoadSuccess, h, hs, hgt]
        omega
      · simp [applyLoadSuccess, h, hs, hgt]

/-- Closed witness for C2: the concrete first-load and growth steps. -/
theorem C2_witness :
    (applyLoadSuccess
        { resetResourceState with countStrategy := CountStrategy.none }
        0 25 Option.none).totalRecords = (25 : Int)
    ∧ (applyLoadSuccess
        { totalRecords := 25, dataInitialized := true,
          countStrategy := CountStrategy.none, pageSize := 25,
          columnTypes := [] } 25 10 Option.none).totalRecords = (35 : Int) := by
  constructor
  · exact C2_total_reconciliation.1
      { resetResourceState with countStrategy := CountStrategy.none }
      0 25 rfl
  · have h := (C2_total_reconciliation.2.1
      { totalRecords := 25, dataInitialized := true,
        countStrategy := CountStrategy.none, pageSize := 25,
        columnTypes := [] } 25 10 rfl rfl).1 (by decide)
    rw [h]
    rfl

lemma objGet_objSet_self {α : Type} (m : List (String × α)) (k : String)
    (v : α) : objGet (objSet m k v) k = some v := by
  induction m with
  | nil => simp [objSet, objGet]
  | cons p rest ih =>
    obtain ⟨k', v'⟩ := p
    by_cases hk : k' = k
    · subst hk
      simp [objSet, objGet]
    · simp [objSet, objGet, hk, ih]

lemma objGet_objSet_ne {α : Type} (m : List (String × α)) (k c : String)
    (v : α) (hne : c ≠ k) : objGet (objSet m k v) c = objGet m c := by
  induction m with
  | nil =>
    simp only [objSet, objGet]
    rw [if_neg (fun h => hne h.symm)]
  | cons p rest ih =>
    obtain ⟨k', v'⟩ := p
    by_cases hk : k' = k
    · subst hk
      simp only [objSet, if_pos rfl, objGet]
      rw [if_neg (fun h => hne h.symm), if_neg (fun h => hne h.symm)]
    · simp only [objSet, if_neg hk, objGet]
      by_cases hc : k' = c
      · rw [if_pos hc, if_pos hc]
      · rw [if_neg hc, if_neg hc]
        exact ih

lemma objGet_objSet_isSome {α : Type} (m : List (String × α)) (k c : String)
    (v : α) (h : (objGet m c).isSome = true) :
    (objGet (objSet m k v) c).isSome = true := by
  by_cases hk : c = k
  · subst hk
    simp [objGet_objSet_self]
  · rw [objGet_objSet_ne m k c v hk]
    exact h

lemma updateStep_get_unwritten (data : List (Option Row))
    (acc : List (String × ColumnValueType)) (col c : String)
    (hc : ¬ c ∈ (match detectColumnType data col with
      | some _ => col :: (let s := sanitizeFieldName col
                          if s ≠ "" ∧ s ≠ col then [s] else [])
      | Option.none => ([] : List String))) :
    objGet (updateColumnTypesStep data acc col) c = objGet acc c := by
  cases hdet : detectColumnType data col with
  | none => simp [updateColumnTypesStep, hdet]
  | some t =>
    rw [hdet] at hc
    simp only [List.mem_cons] at hc
    push_neg at hc
    obtain ⟨hc1, hc2⟩ := hc
    simp only [updateColumnTypesStep, hdet]
    by_cases hcond : sanitizeFieldName col ≠ "" ∧ sanitizeFieldName col ≠ col
    · rw [if_pos hcond]
      rw [objGet_objSet_ne _ _ _ _ ?hs, objGet_objSet_ne _ _ _ _ hc1]
      case hs =>
        intro he
        rw [if_pos hcond] at hc2
        exact hc2 (by simp [he])
    · rw [if_neg hcond]
      rw [objGet_objSet_ne _ _ _ _ hc1]

lemma updateFold_get_unwritten (cols : List String)
    (types : List (String × ColumnValueType)) (data : List (Option Row))
    (c : String) (hc : c ∉ writtenKeys cols data) :
    objGet (cols.foldl (updateColumnTypesStep data) types) c =
      objGet types c := by
  induction cols generalizing types with
  | nil => rfl
  | cons col rest ih =>
    simp only [writtenKeys, List.flatMap_cons, List.mem_append] at hc
    push_neg at hc
    obtain ⟨hc1, hc2⟩ := hc
    rw [List.foldl_cons, ih _ (by simpa [writtenKeys] using hc2),
      updateStep_get_unwritten data types col c hc1]

lemma updateFold_isSome (cols : List String)
    (types : List (String × ColumnValueType)) (data : List (Option Row))
    (c : String) (h : (objGet types c).isSome = true) :
    (objGet (cols.foldl (updateColumnTypesStep data) types) c).isSome
      = true := by
  induction cols generalizing types with
  | nil => exact h
  | cons col rest ih =>
    rw [List.foldl_cons]
    apply ih
    cases hdet : detectColumnType data col with
    | none => simpa [updateColumnTypesStep, hdet] using h
    | some t =>
      simp only [updateColumnTypesStep, hdet]
      by_cases hcond : sanitizeFieldName col ≠ "" ∧
          sanitizeFieldName col ≠ col
      · rw [if_pos hcond]
        exact objGet_objSet_isSome _ (sanitizeFieldName col) c t
          (objGet_objSet_isSome types col c t h)
      · rw [if_neg hcond]
        exact objGet_objSet_isSome types col c t h

lemma writtenKeys_subset_of_sanitized (cols : List String)
    (data : List (Option Row)) (hsan : ∀ x ∈ cols, sanitizeFieldName x = x) :
    ∀ k ∈ writtenKeys cols data, k ∈ cols := by
  intro k hk
  simp only [writtenKeys, List.mem_flatMap] at hk
  obtain ⟨col, hcol, hk⟩ := hk
  cases hdet : detectColumnType data col with
  | none =>
    rw [hdet] at hk
    simp at hk
  | some t =>
    rw [hdet] at hk
    simp only [List.mem_cons] at hk
    rcases hk with rfl | hk
    · exact hcol
    · rw [hsan col hcol] at hk
      simp at hk

lemma updateFold_get_written (cols : List String) (data : List (Option Row))
    (c : String) (t : ColumnValueType)
    (hdet : detectColumnType data c = some t) :
    ∀ (types : List (String × ColumnValueType)), cols.Nodup →
      (∀ x ∈ cols, sanitizeFieldName x = x) → c ∈ cols →
      objGet (cols.foldl (updateColumnTypesStep data) types) c = some t := by
  induction cols with
  | nil =>
    intro types _ _ hc
    simp at hc
  | cons col rest ih =>
    intro types hnd hsan hc
    rw [List.foldl_cons]
    rcases List.mem_cons.mp hc with rfl | hmem
    · have hrest : c ∉ writtenKeys rest data := by
        intro hk
        exact (List.nodup_cons.mp hnd).1
          (writtenKeys_subset_of_sanitized rest data
            (fun x hx => hsan x (List.mem_cons_of_mem _ hx)) c hk)
      rw [updateFold_get_unwritten rest _ data c hrest]
      have hs : sanitizeFieldName c = c := hsan c (List.mem_cons_self _ _)
      simp only [updateColumnTypesStep, hdet, hs]
      rw [if_neg (by simp)]
      exact objGet_objSet_self types c t
    · exact ih _ (List.nodup_cons.mp hnd).2
        (fun x hx => hsan x (List.mem_cons_of_mem _ hx)) hmem

/-- Counterexample for claim C4: a column that already has an entry
(`number`, from an earlier page) is overwritten by a later inference pass
when the new page's first value for it resolves to a different type
(`string`); the claim asserts the entry would be left unchanged. -/
theorem C4_counterexample :
    objGet [("a", ColumnValueType.number)] "a" = some ColumnValueType.number
    ∧ objGet (updateColumnTypes ["a"] [("a", ColumnValueType.number)]
        [some [("a", JSValue.vstr "hello")]]) "a" =
        some ColumnValueType.string := ⟨rfl, rfl⟩

/-- Amended claim C4: a later inference pass never removes an entry, leaves
every entry whose key the pass does not write unchanged, and overwrites the
entry of a column for which the new page detects a type with that newly
detected type; the map is cleared (only) by the resource switch reset. -/
theorem C4_column_types_update :
    (∀ (cols : List String) (types : List (String × ColumnValueType))
        (data : List (Option Row)) (c : String),
        (objGet types c).isSome = true →
        (objGet (updateColumnTypes cols types data) c).isSome = true)
    ∧ (∀ (cols : List String) (types : List (String × ColumnValueType))
        (data : List (Option Row)) (c : String),
        c ∉ writtenKeys cols data →
        objGet (updateColumnTypes cols types data) c = objGet types c)
    ∧ (∀ (cols : List String) (types : List (String × ColumnValueType))
        (data : List (Option Row)) (c : String) (t : ColumnValueType),
        cols.Nodup → (∀ x ∈ cols, sanitizeFieldName x = x) →
        c ∈ cols → detectColumnType data c = some t →
        objGet (updateColumnTypes cols types data) c = some t)
    ∧ resetResourceState.columnTypes = [] := by
  refine ⟨?_, ?_, ?_, rfl⟩
  · intro cols types data c h
    simp only [updateColumnTypes]
    split
    · exact h
    · exact updateFold_isSome cols types data c h
  · intro cols types data c hc
    simp only [updateColumnTypes]
    split
    · rfl
    · exact updateFold_get_unwritten cols types data c hc
  · intro cols types data c t hnd hsan hc hdet
    have hne : data.isEmpty = false := by
      cases data with
      | nil => simp [detectColumnType] at hdet
      | cons r rest => rfl
    simp only [updateColumnTypes, hne, Bool.false_eq_true, if_false]
    exact updateFold_get_written cols data c t hdet types hnd hsan hc

/-- Closed witness for C4's amended statement: an unwritten key survives a
pass unchanged, and a written key carries the newly detected type. -/
theorem C4_witness :
    objGet (updateColumnTypes ["a"] [("b", ColumnValueType.number)]
        [some [("a", JSValue.vnum 3)]]) "b" =
      objGet [("b", ColumnValueType.number)] "b"
    ∧ objGet (updateColumnTypes ["a"] [("a", ColumnValueType.number)]
        [some [("a", JSValue.vstr "x")]]) "a" =
        some ColumnValueType.string :=
  ⟨C4_column_types_update.2.1 ["a"] [("b", ColumnValueType.number)]
     [some [("a", JSValue.vnum 3)]] "b"
     (by decide),
   C4_column_types_update.2.2.1 ["a"] [("a", ColumnValueType.number)]
     [some [("a", JSValue.vstr "x")]] "a" ColumnValueType.string
     (by simp) (by intro x hx; simp at hx; subst hx; rfl)
     (by simp) rfl⟩

lemma handle_none_eq (msg : String) :
    handleCountStrategyError CountStrategy.none msg = Option.none := by
  simp [handleCountStrategyError]

lemma handle_count_eq (msg : String) (st' : CountStrategy)
    (h : handleCountStrategyError CountStrategy.count msg = some st') :
    st' = CountStrategy.inlinecount := by
  simp only [handleCountStrategyError] at h
  split at h
  · exact Option.noConfusion h
  · split at h
    · injection h with h'
      exact h'.symm
    · split at h
      · rename_i hcond
        exact CountStrategy.noConfusion hcond.1
      · exact Option.noConfusion h

lemma handle_inl_eq (msg : String) (st' : CountStrategy)
    (h : handleCountStrategyError CountStrategy.inlinecount msg = some st') :
    st' = CountStrategy.none := by
  simp only [handleCountStrategyError] at h
  split at h
  · exact Option.noConfusion h
  · split at h
    · rename_i hcond
      exact CountStrategy.noConfusion hcond.1
    · split at h
      · injection h with h'
        exact h'.symm
      · exact Option.noConfusion h

lemma runLoad_success (st : CountStrategy) (err : CountStrategy → Option String)
    (h : err st = Option.none) : runLoad st err = ([st], Option.none) := by
  rw [runLoad.eq_def, h]

lemma runLoad_fail_handled (st : CountStrategy)
    (err : CountStrategy → Option String) (msg : String) (st' : CountStrategy)
    (h : err st = some msg)
    (hh : handleCountStrategyError st msg = some st') :
    runLoad st err = (st :: (runLoad st' err).1, (runLoad st' err).2) := by
  rw [runLoad.eq_def, h]
  split
  · rename_i heq
    exact Option.noConfusion heq
  · rename_i x msg2 heq
    injection heq with he
    subst he
    split
    · rename_i st'' heq2
      rw [hh] at heq2
      injection heq2 with he2
      subst he2
      rfl
    · rename_i heq2
      rw [hh] at heq2
      exact Option.noConfusion heq2

lemma runLoad_fail_unhandled (st : CountStrategy)
    (err : CountStrategy → Option String) (msg : String)
    (h : err st = some msg)
    (hh : handleCountStrategyError st msg = Option.none) :
    runLoad st err = ([st], some msg) := by
  rw [runLoad.eq_def, h]
  split
  · rename_i heq
    exact Option.noConfusion heq
  · rename_i x msg2 heq
    injection heq with he
    subst he
    split
    · rename_i st'' heq2
      rw [hh] at heq2
      exact Option.noConfusion heq2
    · rfl

lemma runLoad_facts_none (err : CountStrategy → Option String) :
    (runLoad CountStrategy.none err).1.length ≤
        strategyRank CountStrategy.none + 1
    ∧ List.Chain' (fun a b => strategyRank b < strategyRank a)
        (runLoad CountStrategy.none err).1
    ∧ (runLoad CountStrategy.none err).1.head? = some CountStrategy.none := by
  cases herr : err CountStrategy.none with
  | none => simp [runLoad_success _ _ herr]
  | some msg =>
    simp [runLoad_fail_unhandled _ _ _ herr (handle_none_eq msg)]

lemma runLoad_facts_inl (err : CountStrategy → Option String) :
    (runLoad CountStrategy.inlinecount err).1.length ≤
        strategyRank CountStrategy.inlinecount + 1
    ∧ List.Chain' (fun a b => strategyRank b < strategyRank a)
        (runLoad CountStrategy.inlinecount err).1
    ∧ (runLoad CountStrategy.inlinecount err).1.head? =
        some CountStrategy.inlinecount := by
  cases herr : err CountStrategy.inlinecount with
  | none => simp [runLoad_success _ _ herr]
  | some msg =>
    cases hh : handleCountStrategyError CountStrategy.inlinecount msg with
    | none => simp [runLoad_fail_unhandled _ _ _ herr hh]
    | some st' =>
      have hst' := handle_inl_eq msg st' hh
      subst hst'
      rw [runLoad_fail_handled _ _ _ _ herr hh]
      obtain ⟨hlen, hchain, hhead⟩ := runLoad_facts_none err
      refine ⟨?_, ?_, rfl⟩
      · simp only [List.length_cons]
        simp only [strategyRank] at hlen ⊢
        omega
      · rw [List.chain'_cons']
        refine ⟨?_, hchain⟩
        intro b hb
        rw [hhead] at hb
        injection hb with hb'
        subst hb'
        simp [strategyRank]

lemma runLoad_facts_count (err : CountStrategy → Option String) :
    (runLoad CountStrategy.count err).1.length ≤
        strategyRank CountStrategy.count + 1
    ∧ List.Chain' (fun a b => strategyRank b < strategyRank a)
        (runLoad CountStrategy.count err).1
    ∧ (runLoad CountStrategy.count err).1.head? =
        some CountStrategy.count := by
  cases herr : err CountStrategy.count with
  | none => simp [runLoad_success _ _ herr]
  | some msg =>
    cases hh : handleCountStrategyError CountStrategy.count msg with
    | none => simp [runLoad_fail_unhandled _ _ _ herr hh]
    | some st' =>
      have hst' := handle_count_eq msg st' hh
      subst hst'
      rw [runLoad_fail_handled _ _ _ _ herr hh]
      obtain ⟨hlen, hchain, hhead⟩ := runLoad_facts_inl err
      refine ⟨?_, ?_, rfl⟩
      · simp only [List.length_cons]
        simp only [strategyRank] at hlen ⊢
        omega
      · rw [List.chain'_cons']
        refine ⟨?_, hchain⟩
        intro b hb
        rw [hhead] at hb
        injection hb with hb'
        subst hb'
        simp [strategyRank]

lemma runLoad_facts (st : CountStrategy) (err : CountStrategy → Option String) :
    (runLoad st err).1.length ≤ strategyRank st + 1
    ∧ List.Chain' (fun a b => strategyRank b < strategyRank a)
        (runLoad st err).1
    ∧ (runLoad st err).1.head? = some st := by
  cases st with
  | none => exact runLoad_facts_none err
  | inlinecount => exact runLoad_facts_inl err
  | count => exact runLoad_facts_count err

/-- Counterexample for claim C5: against a server that rejects both
counting conventions, the second request — itself already a retry
(`isRetry = true`) — fails with a counting-capability rejection and the
controller nevertheless re-issues it (a third request is made): the error
path never consults `isRetry`.  The claim's assertion that an
already-retried load is not re-issued is therefore false; the bound comes
from strategy monotonicity instead. -/
theorem C5_counterexample :
    runLoad CountStrategy.count errBoth =
      ([CountStrategy.count, CountStrategy.inlinecount, CountStrategy.none],
        Option.none)
    ∧ handleCountStrategyError CountStrategy.inlinecount
        "$inlinecount is not a valid query option" =
        some CountStrategy.none
    ∧ (runLoad CountStrategy.count errBoth).1.length ≠ 2 := by
  have h1 : handleCountStrategyError CountStrategy.count
      "$count is not a valid query option" =
      some CountStrategy.inlinecount := by decide
  have h2 : handleCountStrategyError CountStrategy.inlinecount
      "$inlinecount is not a valid query option" =
      some CountStrategy.none := by decide
  have hn : runLoad CountStrategy.none errBoth =
      ([CountStrategy.none], Option.none) :=
    runLoad_success CountStrategy.none errBoth rfl
  have hi : runLoad CountStrategy.inlinecount errBoth =
      ([CountStrategy.inlinecount, CountStrategy.none], Option.none) := by
    rw [runLoad_fail_handled CountStrategy.inlinecount errBoth
      "$inlinecount is not a valid query option" CountStrategy.none rfl h2,
      hn]
  have hc : runLoad CountStrategy.count errBoth =
      ([CountStrategy.count, CountStrategy.inlinecount,
        CountStrategy.none], Option.none) := by
    rw [runLoad_fail_handled CountStrategy.count errBoth
      "$count is not a valid query option" CountStrategy.inlinecount rfl h1,
      hi]
  exact ⟨hc, h2, by rw [hc]; simp⟩

/-- Amended claim C5: each handled failure strictly downgrades the
strategy, so a logical page load issues at most `rank + 1` requests (three
from `Count`, and every request after the first is preceded by a strict
downgrade — exactly one retry per downgrade step); a failing load with
strategy `None` always surfaces its error unhandled. -/
theorem C5_retry_budget :
    (∀ (st : CountStrategy) (err : CountStrategy → Option String),
        (runLoad st err).1.length ≤ strategyRank st + 1
        ∧ (runLoad st err).1.length ≤ 3)
    ∧ (∀ (st : CountStrategy) (err : CountStrategy → Option String),
        List.Chain' (fun a b => strategyRank b < strategyRank a)
          (runLoad st err).1)
    ∧ (∀ (err : CountStrategy → Option String) (msg : String),
        err CountStrategy.none = some msg →
        runLoad CountStrategy.none err = ([CountStrategy.none], some msg)) := by
  refine ⟨?_, ?_, ?_⟩
  · intro st err
    have h := (runLoad_facts st err).1
    refine ⟨h, le_trans h ?_⟩
    cases st <;> simp [strategyRank]
  · intro st err
    exact (runLoad_facts st err).2.1
  · intro err msg h
    exact runLoad_fail_unhandled CountStrategy.none err msg h
      (handle_none_eq msg)

/-- Closed witness for C5's amended statement: the double-rejecting server
issues three requests from `Count`, and a `None`-strategy failure surfaces
its message. -/
theorem C5_witness :
    (runLoad CountStrategy.count errBoth).1.length ≤ 3
    ∧ runLoad CountStrategy.none (fun _ => some "boom") =
        ([CountStrategy.none], some "boom") :=
  ⟨(C5_retry_budget.1 CountStrategy.count errBoth).2,
   C5_retry_budget.2.2 (fun _ => some "boom") "boom" rfl⟩

/-- Counterexample for claim C3: a service-document body and a metadata
body that both yield zero resource descriptors make `getResources` succeed
with the empty list — no `DiscoveryError` is produced, contradicting the
claim that discovery fails exactly when both sources yield zero entries. -/
theorem C3_counterexample :
    parseResourcesFromServiceDocument "http://svc" (SvcBody.xmlBody []) = []
    ∧ parseResourcesFromMetadata "http://svc" [] = []
    ∧ getResources "http://svc" (Except.ok (SvcBody.xmlBody []))
        (Except.ok []) = Except.ok [] := by
  refine ⟨?_, ?_, ?_⟩ <;>
    simp [getResources, parseResourcesFromServiceDocument,
      parseResourcesFromMetadata, byTagList, sortByName]

/-- Amended claim C3: when both fetched bodies yield zero descriptors,
`getResources` succeeds with the empty list rather than erring; it never
errs when either source yields at least one descriptor (the service
document's list wins when non-empty, else the metadata list is returned);
an error surfaces only when the service document yields nothing and the
metadata fetch itself fails. -/
theorem C3_discovery_error_conditions (connUrl : String) (body : SvcBody)
    (doc : List XmlElem) :
    (parseResourcesFromServiceDocument connUrl body = [] →
      parseResourcesFromMetadata connUrl doc = [] →
      getResources connUrl (Except.ok body) (Except.ok doc) = Except.ok [])
    ∧ (parseResourcesFromServiceDocument connUrl body ≠ [] →
      ∀ metaFetch : Except String (List XmlElem),
        getResources connUrl (Except.ok body) metaFetch =
          Except.ok (parseResourcesFromServiceDocument connUrl body))
    ∧ (parseResourcesFromServiceDocument connUrl body = [] →
      getResources connUrl (Except.ok body) (Except.ok doc) =
        Except.ok (parseResourcesFromMetadata connUrl doc))
    ∧ (∀ e : String, parseResourcesFromServiceDocument connUrl body = [] →
      getResources connUrl (Except.ok body) (Except.error e) =
        Except.error e) := by
  refine ⟨?_, ?_, ?_, ?_⟩
  · intro h1 h2
    simp [getResources, h1, h2]
  · intro h1 metaFetch
    have : (parseResourcesFromServiceDocument connUrl body).length > 0 :=
      List.length_pos.mpr h1
    simp [getResources, this]
  · intro h1
    simp [getResources, h1]
  · intro e h1
    simp [getResources, h1]

/-- Closed witness for C3's amended statement: a service document with one
JSON entry wins even when the metadata fetch fails, and two empty sources
yield a successful empty list. -/
theorem C3_witness :
    getResources "u"
        (Except.ok (SvcBody.jsonBody
          (some [{ name := some "A", kind := Option.none,
                   url := Option.none }])))
        (Except.error "metadata down") =
      Except.ok (parseResourcesFromServiceDocument "u"
        (SvcBody.jsonBody
          (some [{ name := some "A", kind := Option.none,
                   url := Option.none }])))
    ∧ getResources "u" (Except.ok (SvcBody.jsonBody Option.none))
        (Except.ok []) = Except.ok [] :=
  ⟨(C3_discovery_error_conditions "u" _ []).2.1 (by decide) _,
   (C3_discovery_error_conditions "u" (SvcBody.jsonBody Option.none) []).1
     rfl (by simp [parseResourcesFromMetadata, byTagList, sortByName])⟩

lemma pairIn_cons_elim {a b c : Char} {l : List Char}
    (h : pairIn a b (c :: l) = true) :
    (c = a ∧ l.head? = some b) ∨ pairIn a b l = true := by
  cases l with
  | nil => simp [pairIn] at h
  | cons y rest =>
    simp only [pairIn, Bool.or_eq_true, Bool.and_eq_true, beq_iff_eq] at h
    rcases h with ⟨h1, h2⟩ | h
    · exact Or.inl ⟨h1, by simp [h2]⟩
    · exact Or.inr h

lemma pairIn_cons_intro {a b x : Char} {l : List Char}
    (h : pairIn a b l = true) : pairIn a b (x :: l) = true := by
  cases l with
  | nil => simp [pairIn] at h
  | cons y rest => simp [pairIn, h]

lemma pairIn_mem {a b : Char} {l : List Char} (h : pairIn a b l = true) :
    a ∈ l := by
  induction l with
  | nil => simp [pairIn] at h
  | cons c rest ih =>
    rcases pairIn_cons_elim h with ⟨rfl, _⟩ | h'
    · exact List.mem_cons_self _ _
    · exact List.mem_cons_of_mem _ (ih h')

lemma pairIn_not_mem {a b : Char} {l : List Char} (h : a ∉ l) :
    pairIn a b l = false := by
  cases hp : pairIn a b l with
  | false => rfl
  | true => exact absurd (pairIn_mem hp) h

lemma pairIn_cons_false {a b x : Char} {l : List Char}
    (h1 : ¬(x = a ∧ l.head? = some b)) (h2 : pairIn a b l = false) :
    pairIn a b (x :: l) = false := by
  cases hp : pairIn a b (x :: l) with
  | false => rfl
  | true =>
    rcases pairIn_cons_elim hp with hc | hc
    · exact absurd hc h1
    · rw [h2] at hc
      exact absurd hc Bool.false_ne_true

lemma containsB_two {a b : Char} (p l : List Char)
    (h : containsB (a :: b :: p) l = true) : pairIn a b l = true := by
  induction l with
  | nil => simp [containsB, isPrefixB] at h
  | cons c rest ih =>
    simp only [containsB, Bool.or_eq_true] at h
    rcases h with h | h
    · simp only [isPrefixB, Bool.and_eq_true, beq_iff_eq] at h
      obtain ⟨hca, h2⟩ := h
      cases rest with
      | nil => simp [isPrefixB] at h2
      | cons d rest2 =>
        simp only [isPrefixB, Bool.and_eq_true, beq_iff_eq] at h2
        simp [pairIn, hca.symm, h2.1.symm]
    · exact pairIn_cons_intro (ih h)

lemma pairIn_append_elim {a b : Char} (xs ys : List Char)
    (h : pairIn a b (xs ++ ys) = true) :
    pairIn a b xs = true ∨ pairIn a b ys = true ∨
      (xs.getLast? = some a ∧ ys.head? = some b) := by
  induction xs with
  | nil => exact Or.inr (Or.inl (by simpa using h))
  | cons x xs2 ih =>
    rw [List.cons_append] at h
    rcases pairIn_cons_elim h with ⟨rfl, hb⟩ | h'
    · cases xs2 with
      | nil =>
        refine Or.inr (Or.inr ⟨rfl, ?_⟩)
        simpa using hb
      | cons x2 xs3 =>
        simp only [List.cons_append, List.head?_cons] at hb
        injection hb with hb'
        exact Or.inl (by simp [pairIn, hb'])
    · rcases ih h' with hxs | hys | ⟨hlast, hhead⟩
      · exact Or.inl (pairIn_cons_intro hxs)
      · exact Or.inr (Or.inl hys)
      · cases xs2 with
        | nil => simp at hlast
        | cons x2 xs3 =>
          exact Or.inr (Or.inr ⟨by rw [List.getLast?_cons_cons]; exact hlast,
            hhead⟩)

lemma pairIn_append_false {a b : Char} (xs ys : List Char)
    (h1 : pairIn a b xs = false) (h2 : pairIn a b ys = false)
    (h3 : ¬(xs.getLast? = some a ∧ ys.head? = some b)) :
    pairIn a b (xs ++ ys) = false := by
  cases hp : pairIn a b (xs ++ ys) with
  | false => rfl
  | true =>
    rcases pairIn_append_elim xs ys hp with hc | hc | hc
    · rw [h1] at hc
      exact absurd hc Bool.false_ne_true
    · rw [h2] at hc
      exact absurd hc Bool.false_ne_true
    · exact absurd hc h3

lemma digitCharOf_ne_dollar (n : Nat) : digitCharOf n ≠ '$' := by
  unfold digitCharOf
  split <;> decide

lemma hexDigitChar_ne_dollar (n : Nat) : hexDigitChar n ≠ '$' := by
  unfold hexDigitChar
  split <;> decide

lemma natCharsGo_mem (fuel : Nat) :
    ∀ (n : Nat) (acc : List Char) (c : Char), c ∈ natCharsGo fuel n acc →
      c ∈ acc ∨ ∃ m, c = digitCharOf m := by
  induction fuel with
  | zero =>
    intro n acc c hc
    exact Or.inl hc
  | succ fuel ih =>
    intro n acc c hc
    simp only [natCharsGo] at hc
    split at hc
    · rcases List.mem_cons.mp hc with rfl | hc
      · exact Or.inr ⟨n, rfl⟩
      · exact Or.inl hc
    · rcases ih (n / 10) _ c hc with hacc | hd
      · rcases List.mem_cons.mp hacc with rfl | hacc
        · exact Or.inr ⟨n % 10, rfl⟩
        · exact Or.inl hacc
      · exact Or.inr hd

lemma natChars_ne_dollar (n : Nat) : '$' ∉ natChars n := by
  intro h
  rcases natCharsGo_mem (n + 1) n [] '$' h with hacc | ⟨m, hm⟩
  · simp at hacc
  · exact digitCharOf_ne_dollar m hm.symm

lemma natCharsGo_ne_nil (fuel : Nat) :
    ∀ (n : Nat) (acc : List Char), acc ≠ [] → natCharsGo fuel n acc ≠ [] := by
  induction fuel with
  | zero =>
    intro n acc h
    exact h
  | succ fuel ih =>
    intro n acc h
    simp only [natCharsGo]
    split
    · simp
    · exact ih _ _ (by simp)

lemma natChars_ne_nil (n : Nat) : natChars n ≠ [] := by
  simp only [natChars, natCharsGo]
  split
  · simp
  · exact natCharsGo_ne_nil _ _ _ (by simp)

lemma encodeChar_ne_dollar (c c' : Char) (h : c' ∈ encodeChar c) :
    c' ≠ '$' := by
  simp only [encodeChar] at h
  split at h
  · rename_i hun
    rcases List.mem_singleton.mp h with rfl
    intro hc
    rw [hc] at hun
    exact absurd hun (by decide)
  · simp only [List.mem_flatMap] at h
    obtain ⟨bb, _, hmem⟩ := h
    simp only [List.mem_cons] at hmem
    rcases hmem with rfl | rfl | rfl | h0
    · decide
    · exact hexDigitChar_ne_dollar _
    · exact hexDigitChar_ne_dollar _
    · simp at h0

lemma encodeURIComponent_ne_dollar (s : String) :
    ∀ c ∈ (encodeURIComponent s).data, c ≠ '$' := by
  intro c hc
  simp only [encodeURIComponent] at hc
  simp only [List.mem_flatMap] at hc
  obtain ⟨d, _, hmem⟩ := hc
  exact encodeChar_ne_dollar d c hmem

lemma getLast?_append_ne (xs ys : List Char) (a : Char)
    (hx : xs.getLast? ≠ some a) (hy : ∀ c ∈ ys, c ≠ a) :
    (xs ++ ys).getLast? ≠ some a := by
  cases ys with
  | nil => simpa using hx
  | cons y ys2 =>
    intro h
    have hne : (y :: ys2) ≠ [] := by simp
    rw [List.getLast?_append_of_ne_nil xs hne] at h
    exact hy _ (mem_of_getLastEq h) rfl

lemma pairIn_dollar_head (b : Char) (rest : List Char)
    (hhead : rest.head? ≠ some b) (hrest : '$' ∉ rest) :
    pairIn '$' b ('$' :: rest) = false :=
  pairIn_cons_false (fun h => hhead h.2) (pairIn_not_mem hrest)

lemma natChars_all_ne_dollar (n : Nat) : ∀ c ∈ natChars n, c ≠ '$' :=
  fun c hc hceq => natChars_ne_dollar n (hceq ▸ hc)

lemma partTop_facts (lead : String) (t : Nat)
    (hlead : lead.data = '$' :: 't' :: 'o' :: 'p' :: '=' :: [] ∨
      lead.data = '$' :: 's' :: 'k' :: 'i' :: 'p' :: '=' :: []) :
    (∀ b : Char, b ≠ 't' → b ≠ 's' →
      pairIn '$' b (lead ++ natRepr t).data = false)
    ∧ (lead ++ natRepr t).data.getLast? ≠ some '$' := by
  have hdata : (lead ++ natRepr t).data = lead.data ++ natChars t := by
    rw [String.data_append]
    rfl
  constructor
  · intro b hbt hbs
    rw [hdata]
    rcases hlead with h | h <;> rw [h]
    · refine pairIn_dollar_head b _ (by simpa using Ne.symm hbt) ?_
      intro hmem
      rcases List.mem_append.mp hmem with hLit | hTl
      · exact absurd hLit (by decide)
      · exact natChars_all_ne_dollar t _ hTl rfl
    · refine pairIn_dollar_head b _ (by simpa using Ne.symm hbs) ?_
      intro hmem
      rcases List.mem_append.mp hmem with hLit | hTl
      · exact absurd hLit (by decide)
      · exact natChars_all_ne_dollar t _ hTl rfl
  · rw [hdata]
    rcases hlead with h | h <;> rw [h] <;>
      exact getLast?_append_ne _ _ _ (by decide)
        (natChars_all_ne_dollar t)

lemma partEncoded_facts (lead : String) (s : String) (b c1 : Char)
    (restL : List Char)
    (hlead : lead.data = '$' :: c1 :: restL)
    (hc1 : c1 ≠ b)
    (hnod : '$' ∉ c1 :: restL)
    (hlast : lead.data.getLast? ≠ some '$') :
    pairIn '$' b (lead ++ encodeURIComponent s).data = false
    ∧ (lead ++ encodeURIComponent s).data.getLast? ≠ some '$' := by
  have hdata : (lead ++ encodeURIComponent s).data =
      lead.data ++ (encodeURIComponent s).data := String.data_append ..
  have henc : ∀ c ∈ (encodeURIComponent s).data, c ≠ '$' :=
    encodeURIComponent_ne_dollar s
  constructor
  · rw [hdata, hlead, List.cons_append]
    apply pairIn_dollar_head
    · rw [List.cons_append]
      simp only [List.head?_cons]
      intro hcon
      injection hcon with he
      exact hc1 he
    · intro hmem
      rw [List.cons_append] at hmem
      rcases List.mem_cons.mp hmem with h1 | hmem
      · exact hnod (by rw [h1.symm] at hnod ⊢; exact List.mem_cons_self _ _)
      · rcases List.mem_append.mp hmem with hl | hr
        · exact hnod (List.mem_cons_of_mem _ hl)
        · exact henc _ hr rfl
  · rw [hdata]
    exact getLast?_append_ne _ _ _ hlast henc

lemma queryParts_facts (opts : ResourceDataRequestOptions)
    (hinc : opts.includeCount = false) :
    ∀ p ∈ queryParts opts,
      pairIn '$' 'c' p.data = false ∧ pairIn '$' 'i' p.data = false ∧
        p.data.getLast? ≠ some '$' := by
  intro p hp
  simp only [queryParts, hinc, Bool.false_eq_true, if_false,
    List.append_nil] at hp
  rcases List.mem_append.mp hp with hp | hfil
  rcases List.mem_append.mp hp with hp | hord
  rcases List.mem_append.mp hp with hp | hskip
  rcases List.mem_append.mp hp with hfmt | htop
  · rcases List.mem_singleton.mp hfmt with rfl
    exact ⟨by decide, by decide, by decide⟩
  · cases htopv : opts.top with
    | none =>
      rw [htopv] at htop
      simp at htop
    | some t =>
      rw [htopv] at htop
      replace htop : p ∈ (if t > 0 then ["$top=" ++ natRepr t] else []) :=
        htop
      by_cases ht : t > 0
      · rw [if_pos ht] at htop
        rcases List.mem_singleton.mp htop with rfl
        obtain ⟨hpair, hlast⟩ := partTop_facts "$top=" t (Or.inl rfl)
        exact ⟨hpair 'c' (by decide) (by decide),
          hpair 'i' (by decide) (by decide), hlast⟩
      · rw [if_neg ht] at htop
        simp at htop
  · cases hskipv : opts.skip with
    | none =>
      rw [hskipv] at hskip
      simp at hskip
    | some sk =>
      rw [hskipv] at hskip
      replace hskip : p ∈ (if sk > 0 then ["$skip=" ++ natRepr sk] else []) :=
        hskip
      by_cases hs : sk > 0
      · rw [if_pos hs] at hskip
        rcases List.mem_singleton.mp hskip with rfl
        obtain ⟨hpair, hlast⟩ := partTop_facts "$skip=" sk (Or.inr rfl)
        exact ⟨hpair 'c' (by decide) (by decide),
          hpair 'i' (by decide) (by decide), hlast⟩
      · rw [if_neg hs] at hskip
        simp at hskip
  · cases hordv : opts.orderBy with
    | none =>
      rw [hordv] at hord
      simp at hord
    | some ob =>
      rw [hordv] at hord
      replace hord : p ∈ (if ob ≠ "" then
          ["$orderby=" ++ encodeURIComponent ob] else []) := hord
      by_cases ho : ob ≠ ""
      · rw [if_pos ho] at hord
        rcases List.mem_singleton.mp hord with rfl
        refine ⟨(partEncoded_facts "$orderby=" ob 'c' 'o' _ rfl (by decide)
            (by decide) (by decide)).1,
          (partEncoded_facts "$orderby=" ob 'i' 'o' _ rfl (by decide)
            (by decide) (by decide)).1,
          (partEncoded_facts "$orderby=" ob 'c' 'o' _ rfl (by decide)
            (by decide) (by decide)).2⟩
      · rw [if_neg ho] at hord
        simp at hord
  · cases hfilv : opts.filter with
    | none =>
      rw [hfilv] at hfil
      simp at hfil
    | some f =>
      rw [hfilv] at hfil
      replace hfil : p ∈ (if f ≠ "" then
          ["$filter=" ++ encodeURIComponent f] else []) := hfil
      by_cases hf : f ≠ ""
      · rw [if_pos hf] at hfil
        rcases List.mem_singleton.mp hfil with rfl
        refine ⟨(partEncoded_facts "$filter=" f 'c' 'f' _ rfl (by decide)
            (by decide) (by decide)).1,
          (partEncoded_facts "$filter=" f 'i' 'f' _ rfl (by decide)
            (by decide) (by decide)).1,
          (partEncoded_facts "$filter=" f 'c' 'f' _ rfl (by decide)
            (by decide) (by decide)).2⟩
      · rw [if_neg hf] at hfil
        simp at hfil

lemma joinAmp_data_cons (p q : String) (ps : List String) :
    (joinAmp (p :: q :: ps)).data =
      p.data ++ ('&' :: (joinAmp (q :: ps)).data) := by
  show (p ++ "&" ++ joinAmp (q :: ps)).data = _
  rw [String.data_append, String.data_append]
  simp

lemma joinAmp_pairIn_false (a b : Char) (ha : a ≠ '&')
    (parts : List String)
    (hp : ∀ p ∈ parts,
      pairIn a b p.data = false ∧ p.data.getLast? ≠ some a) :
    pairIn a b (joinAmp parts).data = false := by
  induction parts with
  | nil => rfl
  | cons p ps ih =>
    cases ps with
    | nil => exact (hp p (List.mem_singleton.mpr rfl)).1
    | cons q ps2 =>
      rw [joinAmp_data_cons]
      apply pairIn_append_false
      · exact (hp p (List.mem_cons_self _ _)).1
      · apply pairIn_cons_false
        · intro hcon
          exact ha hcon.1.symm
        · exact ih fun r hr => hp r (List.mem_cons_of_mem _ hr)
      · intro hcon
        exact (hp p (List.mem_cons_self _ _)).2 hcon.1

lemma queryString_no_count_tokens (opts : ResourceDataRequestOptions)
    (hinc : opts.includeCount = false) :
    containsStr (joinAmp (queryParts opts)) "$count=true" = false
    ∧ containsStr (joinAmp (queryParts opts)) "$inlinecount=allpages"
        = false := by
  have hparts := queryParts_facts opts hinc
  constructor
  · cases hcon : containsStr (joinAmp (queryParts opts)) "$count=true" with
    | false => rfl
    | true =>
      have h2 : pairIn '$' 'c' (joinAmp (queryParts opts)).data = true :=
        containsB_two _ _ hcon
      have h3 := joinAmp_pairIn_false '$' 'c' (by decide) _
        (fun p hpm => ⟨(hparts p hpm).1, (hparts p hpm).2.2⟩)
      rw [h3] at h2
      exact absurd h2 Bool.false_ne_true
  · cases hcon : containsStr (joinAmp (queryParts opts))
        "$inlinecount=allpages" with
    | false => rfl
    | true =>
      have h2 : pairIn '$' 'i' (joinAmp (queryParts opts)).data = true :=
        containsB_two _ _ hcon
      have h3 := joinAmp_pairIn_false '$' 'i' (by decide) _
        (fun p hpm => ⟨(hparts p hpm).2.1, (hparts p hpm).2.2⟩)
      rw [h3] at h2
      exact absurd h2 Bool.false_ne_true

/-- Claim C1: from strategy `InlineCount`, a failing response whose
extracted message (lower-cased) contains `$inlinecount` and `not a valid`
moves the strategy to `None`, and the next outgoing request's query string
(issued with `includeCount = false`, which `shouldIncludeCount` forces
under strategy `None`) contains neither `$count=true` nor
`$inlinecount=allpages`; from strategy `Count`, a `$count`/`not a valid`
message moves to `InlineCount` and never directly to `None`; any other
message leaves the strategy unchanged and is reported as not handled. -/
theorem C1_count_strategy_negotiation (msg : String) :
    (containsStr (toLowerStr msg) "$inlinecount" = true →
      containsStr (toLowerStr msg) "not a valid" = true →
      handleCountStrategyError CountStrategy.inlinecount msg =
          some CountStrategy.none
        ∧ ∀ (di : Bool) (first : Nat),
            shouldIncludeCount CountStrategy.none di first = false)
    ∧ (containsStr (toLowerStr msg) "$count" = true →
      containsStr (toLowerStr msg) "not a valid" = true →
      handleCountStrategyError CountStrategy.count msg =
          some CountStrategy.inlinecount
        ∧ handleCountStrategyError CountStrategy.count msg ≠
            some CountStrategy.none)
    ∧ (∀ st : CountStrategy,
        ¬(st = CountStrategy.count ∧
          containsStr (toLowerStr msg) "$count" = true ∧
          containsStr (toLowerStr msg) "not a valid" = true) →
        ¬(st = CountStrategy.inlinecount ∧
          containsStr (toLowerStr msg) "$inlinecount" = true ∧
          containsStr (toLowerStr msg) "not a valid" = true) →
        handleCountStrategyError st msg = Option.none)
    ∧ (∀ opts : ResourceDataRequestOptions, opts.includeCount = false →
        containsStr (joinAmp (queryParts opts)) "$count=true" = false
        ∧ containsStr (joinAmp (queryParts opts)) "$inlinecount=allpages"
            = false) := by
  refine ⟨?_, ?_, ?_, ?_⟩
  · intro h1 h2
    have hm : toLowerStr msg ≠ "" := by
      intro h0
      rw [h0] at h1
      exact absurd h1 (by decide)
    refine ⟨?_, fun di first => rfl⟩
    simp only [handleCountStrategyError]
    rw [if_neg hm]
    simp [h1, h2]
  · intro h1 h2
    have hm : toLowerStr msg ≠ "" := by
      intro h0
      rw [h0] at h1
      exact absurd h1 (by decide)
    have heq : handleCountStrategyError CountStrategy.count msg =
        some CountStrategy.inlinecount := by
      simp only [handleCountStrategyError]
      rw [if_neg hm]
      simp [h1, h2]
    refine ⟨heq, ?_⟩
    rw [heq]
    simp
  · intro st hn1 hn2
    simp only [handleCountStrategyError]
    by_cases hm : toLowerStr msg = ""
    · rw [if_pos hm]
    · rw [if_neg hm, if_neg hn1, if_neg hn2]
  · intro opts hinc
    exact queryString_no_count_tokens opts hinc

/-- Closed witness for C1: concrete vendor-phrased rejections drive the
downgrades, an unrelated message is not handled, and a concrete
`includeCount = false` request query carries no counting parameter. -/
theorem C1_witness :
    handleCountStrategyError CountStrategy.inlinecount
        "The $INLINECOUNT option is not a valid query option" =
      some CountStrategy.none
    ∧ shouldIncludeCount CountStrategy.none true 25 = false
    ∧ handleCountStrategyError CountStrategy.count
        "$count is not a valid query option" =
      some CountStrategy.inlinecount
    ∧ handleCountStrategyError CountStrategy.inlinecount "server exploded" =
        Option.none
    ∧ containsStr (joinAmp (queryParts
        { skip := some 25, top := some 25, includeCount := false,
          countStrategy := Option.none, orderBy := some "Name asc",
          filter := Option.none })) "$count=true" = false :=
  ⟨((C1_count_strategy_negotiation
      "The $INLINECOUNT option is not a valid query option").1
      (by decide) (by decide)).1,
   ((C1_count_strategy_negotiation
      "The $INLINECOUNT option is not a valid query option").1
      (by decide) (by decide)).2 true 25,
   ((C1_count_strategy_negotiation
      "$count is not a valid query option").2.1
      (by decide) (by decide)).1,
   (C1_count_strategy_negotiation "server exploded").2.2.1
     CountStrategy.inlinecount
     (fun h => absurd h.2.1 (by decide))
     (fun h => absurd h.2.1 (by decide)),
   ((C1_count_strategy_negotiation "server exploded").2.2.2
     { skip := some 25, top := some 25, includeCount := false,
       countStrategy := Option.none, orderBy := some "Name asc",
       filter := Option.none } rfl).1⟩
